import Mathlib

/-!
Verification development for a repository of dashboard prototypes:
a GitLab issue dashboard (label parsing, hygiene checks, label rebuilding),
a Fund Explorer (JSON commentary/log persistence, Excel folder loading) and
a fund-data ETL simulation (Yes/No mapping, pivot table with totals), plus
a CSV issue-export script.

Python strings are modelled as lists of ASCII characters, dictionaries as
insertion-ordered association lists, and the file system as explicit state.
-/

/-- Python strings, modelled as lists of characters. -/
abbrev PyStr := List Char

/-- Embed a Lean string literal into the model. -/
def str (s : String) : PyStr := s.data

/-- Whitespace characters recognised by Python `str.strip` and the regex
class `\s` (ASCII fragment). -/
def isPySpace (c : Char) : Bool :=
  c = ' ' || c = '\t' || c = '\n' || c = '\r' || c = '\x0b' || c = '\x0c'

/-- Remove leading whitespace (`str.lstrip`). -/
def stripStart (l : PyStr) : PyStr := l.dropWhile isPySpace

/-- Remove trailing whitespace (`str.rstrip`). -/
def stripEnd (l : PyStr) : PyStr := (l.reverse.dropWhile isPySpace).reverse

/-- Python `str.strip`: remove whitespace at both ends. -/
def pyStrip (l : PyStr) : PyStr := stripStart (stripEnd l)

/-- Consume the optional `-` of the regex `^\d+\-?\s*`. -/
def dropDash : PyStr → PyStr
  | c :: rest => if c = '-' then rest else c :: rest
  | [] => []

/-- One application of `re.sub(r"^\d+\-?\s*", "", ·)`: if the string starts
with a digit, drop the maximal run of digits, then one optional `-`, then
any run of whitespace.  With no leading digit the regex does not match and
the string is unchanged. -/
def stripDigitPre (l : PyStr) : PyStr :=
  match l with
  | [] => []
  | c :: _ =>
    if c.isDigit then
      (dropDash (l.dropWhile Char.isDigit)).dropWhile isPySpace
    else l

/-- `normalize_label` from `gitlabapp.py`:
`re.sub(r"^\d+\-?\s*", "", raw_label.strip())`. -/
def normalize_label (raw_label : PyStr) : PyStr :=
  stripDigitPre (pyStrip raw_label)

/-- Python `str.title` (ASCII model): an alphabetic character is uppercased
when it follows a non-cased character and lowercased when it follows a cased
one; other characters are kept. -/
def pyTitleAux : Bool → PyStr → PyStr
  | _, [] => []
  | prevCased, c :: rest =>
    if c.isAlpha then
      (if prevCased then c.toLower else c.toUpper) :: pyTitleAux true rest
    else
      c :: pyTitleAux false rest

/-- Python `str.title` on a whole string. -/
def pyTitle (l : PyStr) : PyStr := pyTitleAux false l

/-- Python `s.split("::", 1)` combined with the `"::" in s` test: returns
`some (key, value)` splitting at the first occurrence of `"::"`, and `none`
when the string contains no `"::"`. -/
def splitOnColons : PyStr → Option (PyStr × PyStr)
  | [] => none
  | [_] => none
  | c1 :: c2 :: rest =>
    if c1 = ':' && c2 = ':' then some ([], rest)
    else
      match splitOnColons (c2 :: rest) with
      | some (k, v) => some (c1 :: k, v)
      | none => none

/-- Python `s.startswith(p)`. -/
def pyStartsWith (l p : PyStr) : Bool := p.isPrefixOf l

/-- The record built by `parse_labels`: exactly six fields, one per label
category, each a string. -/
structure ParsedLabels where
  Team : PyStr
  Status : PyStr
  Sprint : PyStr
  Project : PyStr
  Workstream : PyStr
  Milestone : PyStr
deriving DecidableEq, Repr

/-- The initial dictionary of `parse_labels`: all six fields empty. -/
def initParsed : ParsedLabels := ⟨[], [], [], [], [], []⟩

/-- The body of the `for raw_label in labels` loop of `parse_labels`
(`gitlabapp.py`): normalize, skip labels without `"::"`, split at the first
`"::"`, title-case and strip the key, strip the value, and set the first
field whose name the key starts with. -/
def parseLabelStep (parsed : ParsedLabels) (raw_label : PyStr) : ParsedLabels :=
  let label := normalize_label raw_label
  match splitOnColons label with
  | none => parsed
  | some (k, v) =>
    let key := pyTitle (pyStrip k)
    let value := pyStrip v
    if pyStartsWith key (str "Team") then { parsed with Team := value }
    else if pyStartsWith key (str "Status") then { parsed with Status := value }
    else if pyStartsWith key (str "Sprint") then { parsed with Sprint := value }
    else if pyStartsWith key (str "Project") then { parsed with Project := value }
    else if pyStartsWith key (str "Workstream") then { parsed with Workstream := value }
    else if pyStartsWith key (str "Milestone") then { parsed with Milestone := value }
    else parsed

/-- `parse_labels` from `gitlabapp.py`. -/
def parse_labels (labels : List PyStr) : ParsedLabels :=
  labels.foldl parseLabelStep initParsed

/-- Does the string start with an ASCII digit?  This is exactly when the
regex `^\d+\-?\s*` of `normalize_label` matches. -/
def hasDigitHead : PyStr → Bool
  | [] => false
  | c :: _ => c.isDigit

/-- The six label categories handled by `parse_labels`. -/
inductive LabelField
  | team | status | sprint | project | workstream | milestone
deriving DecidableEq, Repr

/-- The name a key must start with for each field (the `key.startswith(...)`
tests of `parse_labels`). -/
def fieldName : LabelField → PyStr
  | .team => str "Team"
  | .status => str "Status"
  | .sprint => str "Sprint"
  | .project => str "Project"
  | .workstream => str "Workstream"
  | .milestone => str "Milestone"

/-- `parsed[key] = value` for one field of the record. -/
def setField (p : ParsedLabels) : LabelField → PyStr → ParsedLabels
  | .team, v => { p with Team := v }
  | .status, v => { p with Status := v }
  | .sprint, v => { p with Sprint := v }
  | .project, v => { p with Project := v }
  | .workstream, v => { p with Workstream := v }
  | .milestone, v => { p with Milestone := v }

/-- The data of one GitLab issue that `fetch_issues` consumes: its title,
labels and the milestone title extracted by `safe_milestone`. -/
structure Issue where
  iid : Nat
  title : PyStr
  description : PyStr
  labels : List PyStr
  milestoneTitle : PyStr
deriving DecidableEq, Repr

/-- One row of the dataframe built by `fetch_issues`. -/
structure Row where
  iid : Nat
  title : PyStr
  description : PyStr
  team : PyStr
  status : PyStr
  sprint : PyStr
  project : PyStr
  workstream : PyStr
  milestone : PyStr
deriving DecidableEq, Repr

/-- The row `fetch_issues` appends for one issue: the parsed label fields,
with the Python `or` fallback of the milestone to `safe_milestone`. -/
def rowOf (issue : Issue) : Row :=
  let parsed := parse_labels issue.labels
  { iid := issue.iid
    title := issue.title
    description := issue.description
    team := parsed.Team
    status := parsed.Status
    sprint := parsed.Sprint
    project := parsed.Project
    workstream := parsed.Workstream
    milestone := if parsed.Milestone = [] then issue.milestoneTitle else parsed.Milestone }

/-- The five categories checked in the Hygiene tab
(`fields = ["team","status","sprint","project","title"]`). -/
inductive HygieneField
  | team | status | sprint | project | title
deriving DecidableEq, Repr

/-- Column access `row[f]` for a hygiene category. -/
def rowField (r : Row) : HygieneField → PyStr
  | .team => r.team
  | .status => r.status
  | .sprint => r.sprint
  | .project => r.project
  | .title => r.title

/-- `filtered_df[filtered_df[f]==""]`: the rows flagged by the hygiene check
for category `f`. -/
def hygieneMissing (f : HygieneField) (rows : List Row) : List Row :=
  rows.filter (fun r => rowField r f = [])

/-- `missing_count = len(filtered_df[filtered_df[f]==""])`. -/
def hygieneMissingCount (f : HygieneField) (rows : List Row) : Nat :=
  (hygieneMissing f rows).length

/-- The spec's notion of the parsed value of a hygiene category for an
issue: the `parse_labels` field for label categories and the issue title
for `title`. -/
def categoryValue (issue : Issue) : HygieneField → PyStr
  | .team => (parse_labels issue.labels).Team
  | .status => (parse_labels issue.labels).Status
  | .sprint => (parse_labels issue.labels).Sprint
  | .project => (parse_labels issue.labels).Project
  | .title => issue.title

/-- The label list the Apply Fix action builds: one `Key::Value` label per
non-empty field, in the fixed order of the code. -/
def buildFixLabels (team status sprint project workstream milestone : PyStr) :
    List PyStr :=
  (if team ≠ [] then [str "Team::" ++ team] else []) ++
  (if status ≠ [] then [str "Status::" ++ status] else []) ++
  (if sprint ≠ [] then [str "Sprint::" ++ sprint] else []) ++
  (if project ≠ [] then [str "Project::" ++ project] else []) ++
  (if workstream ≠ [] then [str "Workstream::" ++ workstream] else []) ++
  (if milestone ≠ [] then [str "Milestone::" ++ milestone] else [])

/-- Python dict lookup `d.get(k)` / `k in d`, on an insertion-ordered
association list. -/
def dictGet {α : Type} : List (String × α) → String → Option α
  | [], _ => none
  | (k, v) :: rest, key => if k = key then some v else dictGet rest key

/-- Python dict assignment `d[k] = v`: replace the value of an existing key
in place, or append a new key at the end. -/
def dictSet {α : Type} : List (String × α) → String → α → List (String × α)
  | [], key, v => [(key, v)]
  | (k, w) :: rest, key, v =>
    if k = key then (k, v) :: rest else (k, w) :: dictSet rest key v

/-- One commentary entry appended by `add_comment`
(`{"timestamp": ..., "comment": ..., "user": ...}`). -/
structure CommentEntry where
  timestamp : String
  comment : String
  user : String
deriving DecidableEq, Repr

/-- One activity-log entry appended by `log_action`
(`{"timestamp": ..., "action": ..., "details": ...}`). -/
structure LogEntry where
  timestamp : String
  action : String
  details : String
deriving DecidableEq, Repr

/-- The two JSON files of the Fund Explorer (`fund_commentary.json` and
`user_activity.json`), as the state threaded through `add_comment` and
`log_action` in `userhistorytab.py`. -/
structure ExplorerState where
  commentaryFile : List (String × List CommentEntry)
  logFile : List (String × List LogEntry)
deriving DecidableEq, Repr

/-- `log_action(user, action, details)` from `userhistorytab.py`: load the
log file, create the user's list if absent, append one entry, save. -/
def log_action (st : ExplorerState) (user action details now : String) :
    ExplorerState :=
  let logs := st.logFile
  let logs := if (dictGet logs user).isSome then logs else dictSet logs user []
  let logs := dictSet logs user
    (((dictGet logs user).getD []) ++ [⟨now, action, details⟩])
  { st with logFile := logs }

/-- `add_comment(fund_name, comment, user)` from `userhistorytab.py`: load
the commentary file, create the fund's list if absent, append one entry,
save, then log the action with the fund name as details. -/
def add_comment (st : ExplorerState) (fund_name comment user now nowLog : String) :
    ExplorerState :=
  let commentary := st.commentaryFile
  let commentary := if (dictGet commentary fund_name).isSome then commentary
    else dictSet commentary fund_name []
  let commentary := dictSet commentary fund_name
    (((dictGet commentary fund_name).getD []) ++ [⟨now, comment, user⟩])
  let st1 : ExplorerState := { st with commentaryFile := commentary }
  log_action st1 user "Added commentary" fund_name nowLog

/-- The possible states of a JSON file on disk: absent, present but not
parseable as JSON, or present with parsed contents. -/
inductive FileContent (α : Type)
  | missing
  | invalid
  | valid (contents : α)
deriving DecidableEq, Repr

/-- A Python call that either returns normally or raises an exception. -/
inductive PyResult (α : Type)
  | ok (val : α)
  | exc
deriving DecidableEq, Repr

/-- `load_json_file` as written in `userhistorytab.py`,
`updatedUIwithAPIexceptionhandling.py` (default `{}`) and
`updatedfinalfile.py` (explicit default): if the file exists, `json.load`
inside try/except returning the default on any exception; otherwise the
default. -/
def load_json_file_try {α : Type} (fc : FileContent α) (default : α) : PyResult α :=
  match fc with
  | .missing => .ok default
  | .invalid => .ok default
  | .valid a => .ok a

/-- `load_json_file` as written in `updated-logging.py`: if the file exists,
a bare `json.load` with no try/except (so a parse failure raises); otherwise
`{}`. -/
def load_json_file_noTry {α : Type} (fc : FileContent α) (empty : α) : PyResult α :=
  match fc with
  | .missing => .ok empty
  | .invalid => .exc
  | .valid a => .ok a

/-- One cell of the `Value` column of the mock master data: the random
floats of numeric metrics or the `"Yes"`/`"No"` strings of Watch List. -/
inductive CellValue
  | strVal (s : PyStr)
  | numVal (q : ℚ)
deriving DecidableEq, Repr

/-- Python `str.lower` (ASCII model). -/
def pyLower (l : PyStr) : PyStr := l.map Char.toLower

/-- The Yes/No conversion applied to the `Value` column before pivoting:
`lambda x: 1 if str(x).lower() == "yes" else (0 if str(x).lower() == "no"
else x)`. -/
def mapYesNo : CellValue → CellValue
  | .strVal s =>
    if pyLower s = str "yes" then .numVal 1
    else if pyLower s = str "no" then .numVal 0
    else .strVal s
  | .numVal q => .numVal q

/-- Is the cell numeric after mapping?  The generated master data only
yields numeric cells once Yes/No are mapped. -/
def isNumericCell : CellValue → Bool
  | .numVal _ => true
  | .strVal _ => false

/-- The numeric content of a cell; pandas sums numeric cells, and the
pivot theorems only use this under the hypothesis that every mapped cell is
numeric. -/
def asNumber : CellValue → ℚ
  | .numVal q => q
  | .strVal _ => 0

/-- One row of the filtered master dataframe fed to `pivot_table`. -/
structure FactRow where
  fund : String
  metric : String
  columnName : String
  quarter : String
  value : CellValue
deriving DecidableEq, Repr

/-- `filtered_df['Value'] = filtered_df['Value'].apply(...)`: the Yes/No
conversion applied to every row. -/
def mapValues (rows : List FactRow) : List FactRow :=
  rows.map (fun r => { r with value := mapYesNo r.value })

/-- The column labels of the pivot table: the distinct `Column_Name` values
of the pivoted data. -/
def pivotColumns (rows : List FactRow) : List String :=
  (rows.map (fun r => r.columnName)).dedup

/-- The pivot-table cell at row `(f, m)` and column `c` with `aggfunc="sum"`
and `fillna(0)`: the sum of the values of all matching rows, `0` when no
row matches. -/
def pivotCell (rows : List FactRow) (f m c : String) : ℚ :=
  ((rows.filter (fun r => r.fund = f ∧ r.metric = m ∧ r.columnName = c)).map
    (fun r => asNumber r.value)).sum

/-- The added `Total` column: `pivot_df.sum(axis=1)`, the sum of the row's
per-column values. -/
def totalCell (rows : List FactRow) (f m : String) : ℚ :=
  ((pivotColumns rows).map (fun c => pivotCell rows f m c)).sum

/-- One row of an Excel sheet, as an association list column → cell text. -/
abbrev XRow := List (String × String)

/-- A loaded sheet (a pandas DataFrame): its list of rows; `df.empty` is the
empty list. -/
abbrev Frame := List XRow

/-- `df["Fund Name"] = fund_name`: set the column in every row. -/
def setColumn (fr : Frame) (key v : String) : Frame :=
  fr.map (fun r => dictSet r key v)

/-- An Excel file found by `glob`: its base name and, when `pd.ExcelFile`
succeeds, its sheet list; each sheet name maps to `some df` when
`pd.read_excel` succeeds and `none` when it raises. -/
structure XFile where
  fname : String
  sheets : Option (List (String × Option Frame))

/-- An entry of `SHEET_MAPPING`: a single sheet name or a list of names
(the `isinstance(sheets, str)` normalization). -/
inductive SheetSpec
  | single (sheet : String)
  | multi (sheets : List String)
deriving DecidableEq, Repr

/-- `if isinstance(sheets, str): sheets = [sheets]`. -/
def specSheets : SheetSpec → List String
  | .single s => [s]
  | .multi ss => ss

/-- `os.path.splitext(p)[0]`: drop the final extension, unless every
character before the last dot is itself a dot. -/
def splitextBase (s : String) : String :=
  let cs := s.data
  match cs.reverse.findIdx? (fun c => c = '.') with
  | none => s
  | some i =>
    let base := cs.take (cs.length - 1 - i)
    if base.all (fun c => c = '.') then s else ⟨base⟩

/-- Scanner for Python `s.replace(pat, "")`, structurally recursive on a
fuel that the caller sets to the input length (each step consumes at least
one character, so the fuel never runs out on the actual input). -/
def pyReplaceDropAux (pat : List Char) : Nat → List Char → List Char
  | _, [] => []
  | 0, l => l
  | fuel + 1, c :: rest =>
    if pat ≠ [] ∧ pat.isPrefixOf (c :: rest) then
      pyReplaceDropAux pat fuel ((c :: rest).drop pat.length)
    else
      c :: pyReplaceDropAux pat fuel rest

/-- Python `s.replace(pat, "")`: remove every non-overlapping occurrence of
`pat`, scanning left to right (for a non-empty pattern). -/
def pyReplaceDrop (pat l : List Char) : List Char :=
  pyReplaceDropAux pat l.length l

/-- Python `str.upper` (ASCII model). -/
def pyUpper (s : String) : String := ⟨s.data.map Char.toUpper⟩

/-- `os.path.splitext(fname)[0].replace("file", "").upper()`: the fund name
derived from an Excel file name. -/
def fundNameOf (fname : String) : String :=
  pyUpper ⟨pyReplaceDrop (str "file") (splitextBase fname).data⟩

/-- The body of the `for sheet in sheets` loop of
`load_excel_files_from_folder` (`updatedfinalfile.py` /
`utils/file_loader.py`): skip a sheet missing from the workbook, a failed
`pd.read_excel` and an empty frame; otherwise set the `Fund Name` column
and store under `f"{fund_name} ({sheet})"`. -/
def loadSheetStep (fund_name : String) (ws : List (String × Option Frame))
    (dfs : List (String × Frame)) (sheet : String) : List (String × Frame) :=
  match dictGet ws sheet with
  | none => dfs
  | some none => dfs
  | some (some df) =>
    if df.isEmpty then dfs
    else dictSet dfs (fund_name ++ " (" ++ sheet ++ ")")
      (setColumn df "Fund Name" fund_name)

/-- The body of the `for file in files` loop: compute the fund name, skip
files absent from the mapping and files `pd.ExcelFile` cannot open, then
run the sheet loop. -/
def loadFileStep (sheet_mapping : List (String × SheetSpec))
    (dataframes : List (String × Frame)) (file : XFile) : List (String × Frame) :=
  let fund_name := fundNameOf file.fname
  match dictGet sheet_mapping file.fname with
  | none => dataframes
  | some spec =>
    match file.sheets with
    | none => dataframes
    | some ws => (specSheets spec).foldl (loadSheetStep fund_name ws) dataframes

/-- `load_excel_files_from_folder(folder, sheet_mapping)` from
`updatedfinalfile.py` / `utils/file_loader.py`, over the files `glob`
found. -/
def load_excel_files_from_folder (files : List XFile)
    (sheet_mapping : List (String × SheetSpec)) : List (String × Frame) :=
  files.foldl (loadFileStep sheet_mapping) []

/-- One issue fetched by the CSV export script `gitlab.py`: its base
columns and its label list. -/
structure ExportIssue where
  iid : Nat
  title : PyStr
  state : PyStr
  author : PyStr
  assignee : PyStr
  createdAt : PyStr
  dueDate : PyStr
  labels : List PyStr
deriving DecidableEq, Repr

/-- `all_labels = set(); for issue: all_labels.update(issue["labels"])`:
the distinct labels over all fetched issues. -/
def allLabels (all_issues : List ExportIssue) : List PyStr :=
  ((all_issues.map (fun i => i.labels)).flatten).dedup

/-- `sorted_labels = sorted(all_labels)`. -/
def sorted_labels (all_issues : List ExportIssue) : List PyStr :=
  List.insertionSort (· ≤ ·) (allLabels all_issues)

/-- The 0/1 label cells appended to one issue's CSV row: for each column of
`sorted_labels`, `1 if label in issue_labels else 0`. -/
def labelCells (cols : List PyStr) (issue : ExportIssue) : List Nat :=
  cols.map (fun label => if label ∈ issue.labels then 1 else 0)

lemma dropWhile_len_le (p : Char → Bool) : ∀ l : PyStr, (l.dropWhile p).length ≤ l.length := by
  intro l
  induction l with
  | nil => simp
  | cons c t ih =>
    rw [List.dropWhile_cons]
    split
    · exact le_trans ih (Nat.le_succ _)
    · exact le_refl _

lemma dropWhile_idem (p : Char → Bool) : ∀ l : PyStr,
    (l.dropWhile p).dropWhile p = l.dropWhile p := by
  intro l
  induction l with
  | nil => rfl
  | cons c t ih =>
    rw [List.dropWhile_cons]
    split
    · exact ih
    · rw [List.dropWhile_cons]
      simp_all

lemma stripStart_idem (l : PyStr) : stripStart (stripStart l) = stripStart l :=
  dropWhile_idem isPySpace l

lemma stripEnd_idem (l : PyStr) : stripEnd (stripEnd l) = stripEnd l := by
  unfold stripEnd
  rw [List.reverse_reverse, dropWhile_idem]

lemma stripStart_suffix (l : PyStr) : stripStart l <:+ l := List.dropWhile_suffix _

/-- A suffix of a right-stripped string is right-stripped. -/
lemma stripEnd_fixed_of_suffix (l m : PyStr) (hs : l <:+ m) (hm : stripEnd m = m) :
    stripEnd l = l := by
  cases hl : l.reverse with
  | nil =>
    have : l = [] := by simpa using congrArg List.reverse hl
    simp [this, stripEnd]
  | cons c r =>
    have hp : l.reverse <+: m.reverse := List.reverse_prefix.mpr hs
    obtain ⟨t, ht⟩ := hp
    have hm' : List.dropWhile isPySpace m.reverse = m.reverse := by
      have := congrArg List.reverse hm
      simpa [stripEnd] using this
    have hmrev : m.reverse = c :: (r ++ t) := by rw [← ht, hl]; simp
    have hc : isPySpace c = false := by
      rw [hmrev, List.dropWhile_cons] at hm'
      by_contra hcc
      simp only [Bool.not_eq_false] at hcc
      rw [if_pos hcc] at hm'
      have h1 := congrArg List.length hm'
      rw [List.length_cons] at h1
      have hle := dropWhile_len_le isPySpace (r ++ t)
      omega
    unfold stripEnd
    rw [hl, List.dropWhile_cons, if_neg (by simp [hc]), ← hl, List.reverse_reverse]

/-- If `pyStrip` fixes a string then so do both one-sided strips. -/
lemma pyStrip_split (l : PyStr) (h : pyStrip l = l) :
    stripStart l = l ∧ stripEnd l = l := by
  have hlen1 : (stripEnd l).length ≤ l.length := by
    unfold stripEnd
    rw [List.length_reverse]
    calc (List.dropWhile isPySpace l.reverse).length ≤ l.reverse.length :=
          dropWhile_len_le _ _
      _ = l.length := List.length_reverse l
  have hlen2 : l.length ≤ (stripEnd l).length := by
    conv_lhs => rw [← h]
    exact dropWhile_len_le _ _
  have hpre : stripEnd l <+: l := by
    unfold stripEnd
    have hdw : List.dropWhile isPySpace l.reverse <:+ l.reverse := List.dropWhile_suffix _
    rw [← List.reverse_suffix]
    simpa using hdw
  have hE : stripEnd l = l := List.IsPrefix.eq_of_length hpre (le_antisymm hlen1 hlen2)
  refine ⟨?_, hE⟩
  have h' := h
  rw [pyStrip, hE] at h'
  exact h'

lemma pyStrip_idem (l : PyStr) : pyStrip (pyStrip l) = pyStrip l := by
  have hE : stripEnd (stripStart (stripEnd l)) = stripStart (stripEnd l) :=
    stripEnd_fixed_of_suffix _ _ (stripStart_suffix _) (stripEnd_idem l)
  show stripStart (stripEnd (stripStart (stripEnd l))) = stripStart (stripEnd l)
  rw [hE, stripStart_idem]

lemma stripDigitPre_of_not_digit (l : PyStr) (h : hasDigitHead l = false) :
    stripDigitPre l = l := by
  cases l with
  | nil => rfl
  | cons c t =>
    simp only [hasDigitHead] at h
    simp [stripDigitPre, h]

lemma stripDigitPre_suffix (l : PyStr) : stripDigitPre l <:+ l := by
  cases l with
  | nil => exact List.suffix_rfl
  | cons c t =>
    rw [stripDigitPre]
    split
    · have h1 : List.dropWhile Char.isDigit (c :: t) <:+ c :: t := List.dropWhile_suffix _
      have h2 : dropDash (List.dropWhile Char.isDigit (c :: t)) <:+
          List.dropWhile Char.isDigit (c :: t) := by
        cases List.dropWhile Char.isDigit (c :: t) with
        | nil => exact List.suffix_rfl
        | cons a s =>
          rw [dropDash]
          split
          · exact List.suffix_cons _ _
          · exact List.suffix_rfl
      exact ((List.dropWhile_suffix _).trans h2).trans h1
    · exact List.suffix_rfl

/-- `normalize_label` always returns a string fixed by `pyStrip`. -/
lemma pyStrip_normalize (s : PyStr) : pyStrip (normalize_label s) = normalize_label s := by
  rw [normalize_label]
  have hE : stripEnd (stripDigitPre (pyStrip s)) = stripDigitPre (pyStrip s) :=
    stripEnd_fixed_of_suffix _ _ (stripDigitPre_suffix _)
      ((pyStrip_split _ (pyStrip_idem s)).2)
  show stripStart (stripEnd _) = _
  rw [hE]
  cases hps : pyStrip s with
  | nil => rfl
  | cons c t =>
    rw [stripDigitPre]
    split
    · exact dropWhile_idem _ _
    · have h1 := (pyStrip_split (pyStrip s) (pyStrip_idem s)).1
      rw [hps] at h1
      exact h1

example : normalize_label (str "  12- Team::Alpha ") = str "Team::Alpha" := by decide

/-- Claim C9, counterexample: `normalize_label` is not idempotent.  On
`"1-2x"` one application yields `"2x"` and a second application yields
`"x"`, because the removed digit prefix can expose a fresh digit prefix. -/
theorem normalize_label_not_idempotent :
    normalize_label (normalize_label (str "1-2x")) ≠ normalize_label (str "1-2x") := by
  decide

/-- Claim C9, amended: for a string with no leading digit after stripping,
`normalize_label` returns the whitespace-stripped string unchanged; and
`normalize_label` is idempotent on every string whose normalized form does
not start with a digit (idempotence can fail when the removed digit prefix
exposes another digit prefix). -/
theorem normalize_label_amended :
    (∀ s : PyStr, hasDigitHead (pyStrip s) = false → normalize_label s = pyStrip s) ∧
    (∀ s : PyStr, hasDigitHead (normalize_label s) = false →
      normalize_label (normalize_label s) = normalize_label s) := by
  constructor
  · intro s h
    rw [normalize_label, stripDigitPre_of_not_digit _ h]
  · intro s h
    rw [normalize_label, pyStrip_normalize, stripDigitPre_of_not_digit _ h]

/-- Witness for the amended C9 theorem at concrete inputs. -/
theorem normalize_label_amended_witness :
    (hasDigitHead (pyStrip (str " abc ")) = false ∧
      normalize_label (str " abc ") = pyStrip (str " abc ")) ∧
    (hasDigitHead (normalize_label (str "12- abc")) = false ∧
      normalize_label (normalize_label (str "12- abc")) = normalize_label (str "12- abc")) :=
  ⟨⟨by decide, normalize_label_amended.1 _ (by decide)⟩,
   ⟨by decide, normalize_label_amended.2 _ (by decide)⟩⟩

example : parse_labels [str "Team::Alpha", str "noise", str "3 status:: In Progress"] =
    { initParsed with Team := str "Alpha", Status := str "In Progress" } := by decide

example : splitOnColons (str "a:::b") = some (str "a", str ":b") := by decide

lemma pyStartsWith_excl {key a b : PyStr} (h : pyStartsWith key a = true)
    (hab : ¬ (a <+: b)) (hba : ¬ (b <+: a)) : pyStartsWith key b = false := by
  unfold pyStartsWith at h ⊢
  rw [ List.isPrefixOf_iff_prefix] at h
  rw [Bool.eq_false_iff]
  intro hb
  rw [ List.isPrefixOf_iff_prefix] at hb
  rcases List.prefix_or_prefix_of_prefix h hb with hc | hc
  · exact hab hc
  · exact hba hc

/-- The body of the label loop sets exactly the field whose name the
title-cased stripped key starts with. -/
lemma parseLabelStep_of_key (acc : ParsedLabels) (label k v : PyStr) (F : LabelField)
    (hsplit : splitOnColons (normalize_label label) = some (k, v))
    (hkey : pyStartsWith (pyTitle (pyStrip k)) (fieldName F) = true) :
    parseLabelStep acc label = setField acc F (pyStrip v) := by
  cases F with
  | team =>
    simp only [fieldName] at hkey
    simp [parseLabelStep, hsplit, hkey, setField]
  | status =>
    simp only [fieldName] at hkey
    have h1 : pyStartsWith (pyTitle (pyStrip k)) (str "Team") = false :=
      pyStartsWith_excl hkey (by decide) (by decide)
    simp [parseLabelStep, hsplit, hkey, h1, setField]
  | sprint =>
    simp only [fieldName] at hkey
    have h1 : pyStartsWith (pyTitle (pyStrip k)) (str "Team") = false :=
      pyStartsWith_excl hkey (by decide) (by decide)
    have h2 : pyStartsWith (pyTitle (pyStrip k)) (str "Status") = false :=
      pyStartsWith_excl hkey (by decide) (by decide)
    simp [parseLabelStep, hsplit, hkey, h1, h2, setField]
  | project =>
    simp only [fieldName] at hkey
    have h1 : pyStartsWith (pyTitle (pyStrip k)) (str "Team") = false :=
      pyStartsWith_excl hkey (by decide) (by decide)
    have h2 : pyStartsWith (pyTitle (pyStrip k)) (str "Status") = false :=
      pyStartsWith_excl hkey (by decide) (by decide)
    have h3 : pyStartsWith (pyTitle (pyStrip k)) (str "Sprint") = false :=
      pyStartsWith_excl hkey (by decide) (by decide)
    simp [parseLabelStep, hsplit, hkey, h1, h2, h3, setField]
  | workstream =>
    simp only [fieldName] at hkey
    have h1 : pyStartsWith (pyTitle (pyStrip k)) (str "Team") = false :=
      pyStartsWith_excl hkey (by decide) (by decide)
    have h2 : pyStartsWith (pyTitle (pyStrip k)) (str "Status") = false :=
      pyStartsWith_excl hkey (by decide) (by decide)
    have h3 : pyStartsWith (pyTitle (pyStrip k)) (str "Sprint") = false :=
      pyStartsWith_excl hkey (by decide) (by decide)
    have h4 : pyStartsWith (pyTitle (pyStrip k)) (str "Project") = false :=
      pyStartsWith_excl hkey (by decide) (by decide)
    simp [parseLabelStep, hsplit, hkey, h1, h2, h3, h4, setField]
  | milestone =>
    simp only [fieldName] at hkey
    have h1 : pyStartsWith (pyTitle (pyStrip k)) (str "Team") = false :=
      pyStartsWith_excl hkey (by decide) (by decide)
    have h2 : pyStartsWith (pyTitle (pyStrip k)) (str "Status") = false :=
      pyStartsWith_excl hkey (by decide) (by decide)
    have h3 : pyStartsWith (pyTitle (pyStrip k)) (str "Sprint") = false :=
      pyStartsWith_excl hkey (by decide) (by decide)
    have h4 : pyStartsWith (pyTitle (pyStrip k)) (str "Project") = false :=
      pyStartsWith_excl hkey (by decide) (by decide)
    have h5 : pyStartsWith (pyTitle (pyStrip k)) (str "Workstream") = false :=
      pyStartsWith_excl hkey (by decide) (by decide)
    simp [parseLabelStep, hsplit, hkey, h1, h2, h3, h4, h5, setField]

/-- Claim C1: `parse_labels` returns a record with exactly the six fields
Team, Status, Sprint, Project, Workstream, Milestone, all initialized to
the empty string; a label whose normalization contains `"::"` is split at
the first `"::"` into key and value, and when the title-cased stripped key
starts with one of the six field names that field is set to the stripped
value; a label without `"::"` after normalization changes no field. -/
theorem parse_labels_spec :
    parse_labels [] =
      { Team := [], Status := [], Sprint := [], Project := [],
        Workstream := [], Milestone := [] } ∧
    (∀ (ls : List PyStr) (label : PyStr),
      splitOnColons (normalize_label label) = none →
      parse_labels (ls ++ [label]) = parse_labels ls) ∧
    (∀ (ls : List PyStr) (label k v : PyStr) (F : LabelField),
      splitOnColons (normalize_label label) = some (k, v) →
      pyStartsWith (pyTitle (pyStrip k)) (fieldName F) = true →
      parse_labels (ls ++ [label]) = setField (parse_labels ls) F (pyStrip v)) := by
  refine ⟨rfl, ?_, ?_⟩
  · intro ls label h
    rw [parse_labels, List.foldl_append, parse_labels]
    simp [parseLabelStep, h]
  · intro ls label k v F hsplit hkey
    rw [parse_labels, List.foldl_append, parse_labels]
    simp only [List.foldl_cons, List.foldl_nil]
    exact parseLabelStep_of_key _ _ _ _ _ hsplit hkey

/-- Witness for C1 at concrete inputs: a plain label changes nothing and a
`Sprint::` label (with digit-prefix noise) sets the Sprint field. -/
theorem parse_labels_spec_witness :
    (splitOnColons (normalize_label (str "bug")) = none ∧
      parse_labels ([str "Team::Alpha"] ++ [str "bug"]) =
        parse_labels [str "Team::Alpha"]) ∧
    (splitOnColons (normalize_label (str "  7- Sprint:: S1 ")) =
        some (str "Sprint", str " S1") ∧
      pyStartsWith (pyTitle (pyStrip (str "Sprint"))) (fieldName .sprint) = true ∧
      parse_labels ([] ++ [str "  7- Sprint:: S1 "]) =
        setField (parse_labels []) .sprint (pyStrip (str " S1"))) :=
  ⟨⟨by decide, parse_labels_spec.2.1 _ _ (by decide)⟩,
   ⟨by decide, by decide,
    parse_labels_spec.2.2 [] (str "  7- Sprint:: S1 ") (str "Sprint") (str " S1")
      .sprint (by decide) (by decide)⟩⟩

lemma filter_map_comm {α β : Type} (g : α → β) (p : β → Bool) (l : List α) :
    (l.map g).filter p = (l.filter (fun a => p (g a))).map g := by
  induction l with
  | nil => rfl
  | cons a t ih =>
    simp only [List.map_cons, List.filter_cons]
    split
    · simp_all
    · simp_all

lemma rowField_rowOf (issue : Issue) (f : HygieneField) :
    rowField (rowOf issue) f = categoryValue issue f := by
  cases f <;> rfl

/-- Claim C2: for each hygiene category, the flagged rows are exactly the
rows of the filtered set whose parsed value for that category is the empty
string, and the displayed missing count is the number of such issues. -/
theorem hygiene_spec (issues : List Issue) (f : HygieneField) :
    hygieneMissing f (issues.map rowOf) =
      (issues.filter (fun i => categoryValue i f = [])).map rowOf ∧
    hygieneMissingCount f (issues.map rowOf) =
      (issues.filter (fun i => categoryValue i f = [])).length := by
  have h : hygieneMissing f (issues.map rowOf) =
      (issues.filter (fun i => categoryValue i f = [])).map rowOf := by
    rw [hygieneMissing, filter_map_comm]
    have hp : (fun a => decide (rowField (rowOf a) f = [])) =
        (fun a => decide (categoryValue a f = [])) := by
      funext a
      rw [rowField_rowOf]
    rw [hp]
  refine ⟨h, ?_⟩
  rw [hygieneMissingCount, h, List.length_map]

lemma splitOnColons_append (k v : PyStr) (hk : ':' ∉ k) :
    splitOnColons (k ++ ':' :: ':' :: v) = some (k, v) := by
  induction k with
  | nil =>
    simp [splitOnColons]
  | cons c t ih =>
    have hc : (c = ':') = False := by
      simp only [eq_iff_iff, iff_false]
      intro h
      exact hk (by simp [h])
    have ht : ':' ∉ t := fun h => hk (List.mem_cons_of_mem _ h)
    cases hsplit : t ++ ':' :: ':' :: v with
    | nil => simp at hsplit
    | cons c2 rest =>
      rw [List.cons_append, hsplit, splitOnColons]
      rw [← hsplit, ih ht]
      simp [hc]

/-- Stripping is the identity on a label of the shape `c :: a ++ v` whose
head is not whitespace, whose fixed part is right-stripped and whose tail
is strip-fixed. -/
lemma pyStrip_cons_append (c : Char) (a v : PyStr) (hc : isPySpace c = false)
    (ha : stripEnd (c :: a) = c :: a) (hv : pyStrip v = v) :
    pyStrip ((c :: a) ++ v) = (c :: a) ++ v := by
  have hE : stripEnd ((c :: a) ++ v) = (c :: a) ++ v := by
    cases v with
    | nil => simpa using ha
    | cons d w =>
      have hEv : stripEnd (d :: w) = d :: w := (pyStrip_split _ hv).2
      have h1 : List.dropWhile isPySpace ((d :: w).reverse) = (d :: w).reverse := by
        have h2 := congrArg List.reverse hEv
        rw [stripEnd, List.reverse_reverse] at h2
        exact h2
      unfold stripEnd
      rw [List.reverse_append, List.dropWhile_append, h1]
      have hne : ((d :: w).reverse).isEmpty = false := by simp
      rw [hne]
      simp
  rw [pyStrip, hE]
  show List.dropWhile isPySpace (c :: (a ++ v)) = _
  rw [List.dropWhile_cons, if_neg (by simp [hc])]
  rfl

lemma parseLabelStep_build (acc : ParsedLabels) (F : LabelField) (v : PyStr)
    (hv : pyStrip v = v) :
    parseLabelStep acc (fieldName F ++ ':' :: ':' :: v) = setField acc F v := by
  cases F with
  | team =>
    have hns : pyStrip (str "Team::" ++ v) = str "Team::" ++ v :=
      pyStrip_cons_append 'T' (str "eam::") v (by decide) (by decide) hv
    have hnorm : normalize_label (str "Team::" ++ v) = str "Team::" ++ v := by
      rw [normalize_label, hns]
      exact stripDigitPre_of_not_digit _ rfl
    have hsplit : splitOnColons (str "Team::" ++ v) = some (str "Team", v) :=
      splitOnColons_append (str "Team") v (by decide)
    have hkey : pyTitle (pyStrip (str "Team")) = str "Team" := by decide
    show parseLabelStep acc (str "Team::" ++ v) = _
    simp [parseLabelStep, hnorm, hsplit, hkey, hv, setField,
      show pyStartsWith (str "Team") (str "Team") = true from by decide]
  | status =>
    have hns : pyStrip (str "Status::" ++ v) = str "Status::" ++ v :=
      pyStrip_cons_append 'S' (str "tatus::") v (by decide) (by decide) hv
    have hnorm : normalize_label (str "Status::" ++ v) = str "Status::" ++ v := by
      rw [normalize_label, hns]
      exact stripDigitPre_of_not_digit _ rfl
    have hsplit : splitOnColons (str "Status::" ++ v) = some (str "Status", v) :=
      splitOnColons_append (str "Status") v (by decide)
    have hkey : pyTitle (pyStrip (str "Status")) = str "Status" := by decide
    show parseLabelStep acc (str "Status::" ++ v) = _
    simp [parseLabelStep, hnorm, hsplit, hkey, hv, setField,
      show pyStartsWith (str "Status") (str "Team") = false from by decide,
      show pyStartsWith (str "Status") (str "Status") = true from by decide]
  | sprint =>
    have hns : pyStrip (str "Sprint::" ++ v) = str "Sprint::" ++ v :=
      pyStrip_cons_append 'S' (str "print::") v (by decide) (by decide) hv
    have hnorm : normalize_label (str "Sprint::" ++ v) = str "Sprint::" ++ v := by
      rw [normalize_label, hns]
      exact stripDigitPre_of_not_digit _ rfl
    have hsplit : splitOnColons (str "Sprint::" ++ v) = some (str "Sprint", v) :=
      splitOnColons_append (str "Sprint") v (by decide)
    have hkey : pyTitle (pyStrip (str "Sprint")) = str "Sprint" := by decide
    show parseLabelStep acc (str "Sprint::" ++ v) = _
    simp [parseLabelStep, hnorm, hsplit, hkey, hv, setField,
      show pyStartsWith (str "Sprint") (str "Team") = false from by decide,
      show pyStartsWith (str "Sprint") (str "Status") = false from by decide,
      show pyStartsWith (str "Sprint") (str "Sprint") = true from by decide]
  | project =>
    have hns : pyStrip (str "Project::" ++ v) = str "Project::" ++ v :=
      pyStrip_cons_append 'P' (str "roject::") v (by decide) (by decide) hv
    have hnorm : normalize_label (str "Project::" ++ v) = str "Project::" ++ v := by
      rw [normalize_label, hns]
      exact stripDigitPre_of_not_digit _ rfl
    have hsplit : splitOnColons (str "Project::" ++ v) = some (str "Project", v) :=
      splitOnColons_append (str "Project") v (by decide)
    have hkey : pyTitle (pyStrip (str "Project")) = str "Project" := by decide
    show parseLabelStep acc (str "Project::" ++ v) = _
    simp [parseLabelStep, hnorm, hsplit, hkey, hv, setField,
      show pyStartsWith (str "Project") (str "Team") = false from by decide,
      show pyStartsWith (str "Project") (str "Status") = false from by decide,
      show pyStartsWith (str "Project") (str "Sprint") = false from by decide,
      show pyStartsWith (str "Project") (str "Project") = true from by decide]
  | workstream =>
    have hns : pyStrip (str "Workstream::" ++ v) = str "Workstream::" ++ v :=
      pyStrip_cons_append 'W' (str "orkstream::") v (by decide) (by decide) hv
    have hnorm : normalize_label (str "Workstream::" ++ v) = str "Workstream::" ++ v := by
      rw [normalize_label, hns]
      exact stripDigitPre_of_not_digit _ rfl
    have hsplit : splitOnColons (str "Workstream::" ++ v) = some (str "Workstream", v) :=
      splitOnColons_append (str "Workstream") v (by decide)
    have hkey : pyTitle (pyStrip (str "Workstream")) = str "Workstream" := by decide
    show parseLabelStep acc (str "Workstream::" ++ v) = _
    simp [parseLabelStep, hnorm, hsplit, hkey, hv, setField,
      show pyStartsWith (str "Workstream") (str "Team") = false from by decide,
      show pyStartsWith (str "Workstream") (str "Status") = false from by decide,
      show pyStartsWith (str "Workstream") (str "Sprint") = false from by decide,
      show pyStartsWith (str "Workstream") (str "Project") = false from by decide,
      show pyStartsWith (str "Workstream") (str "Workstream") = true from by decide]
  | milestone =>
    have hns : pyStrip (str "Milestone::" ++ v) = str "Milestone::" ++ v :=
      pyStrip_cons_append 'M' (str "ilestone::") v (by decide) (by decide) hv
    have hnorm : normalize_label (str "Milestone::" ++ v) = str "Milestone::" ++ v := by
      rw [normalize_label, hns]
      exact stripDigitPre_of_not_digit _ rfl
    have hsplit : splitOnColons (str "Milestone::" ++ v) = some (str "Milestone", v) :=
      splitOnColons_append (str "Milestone") v (by decide)
    have hkey : pyTitle (pyStrip (str "Milestone")) = str "Milestone" := by decide
    show parseLabelStep acc (str "Milestone::" ++ v) = _
    simp [parseLabelStep, hnorm, hsplit, hkey, hv, setField,
      show pyStartsWith (str "Milestone") (str "Team") = false from by decide,
      show pyStartsWith (str "Milestone") (str "Status") = false from by decide,
      show pyStartsWith (str "Milestone") (str "Sprint") = false from by decide,
      show pyStartsWith (str "Milestone") (str "Project") = false from by decide,
      show pyStartsWith (str "Milestone") (str "Workstream") = false from by decide,
      show pyStartsWith (str "Milestone") (str "Milestone") = true from by decide]

/-- Claim C3: six field values that equal their own strip and have no digit
prefix, built into `Key::Value` labels by the Apply Fix action (skipping
empty fields) and re-parsed with `parse_labels`, come back exactly; empty
fields produce no label and parse back to the empty string. -/
theorem fix_labels_roundtrip
    (t s sp p w m : PyStr)
    (ht : pyStrip t = t) (ht2 : hasDigitHead t = false)
    (hs : pyStrip s = s) (hs2 : hasDigitHead s = false)
    (hsp : pyStrip sp = sp) (hsp2 : hasDigitHead sp = false)
    (hp : pyStrip p = p) (hp2 : hasDigitHead p = false)
    (hw : pyStrip w = w) (hw2 : hasDigitHead w = false)
    (hm : pyStrip m = m) (hm2 : hasDigitHead m = false) :
    parse_labels (buildFixLabels t s sp p w m) =
      { Team := t, Status := s, Sprint := sp, Project := p,
        Workstream := w, Milestone := m } := by
  have e1 : ∀ acc, parseLabelStep acc (str "Team::" ++ t) = setField acc .team t :=
    fun acc => parseLabelStep_build acc .team t ht
  have e2 : ∀ acc, parseLabelStep acc (str "Status::" ++ s) = setField acc .status s :=
    fun acc => parseLabelStep_build acc .status s hs
  have e3 : ∀ acc, parseLabelStep acc (str "Sprint::" ++ sp) = setField acc .sprint sp :=
    fun acc => parseLabelStep_build acc .sprint sp hsp
  have e4 : ∀ acc, parseLabelStep acc (str "Project::" ++ p) = setField acc .project p :=
    fun acc => parseLabelStep_build acc .project p hp
  have e5 : ∀ acc, parseLabelStep acc (str "Workstream::" ++ w) = setField acc .workstream w :=
    fun acc => parseLabelStep_build acc .workstream w hw
  have e6 : ∀ acc, parseLabelStep acc (str "Milestone::" ++ m) = setField acc .milestone m :=
    fun acc => parseLabelStep_build acc .milestone m hm
  rw [buildFixLabels, parse_labels]
  simp only [List.foldl_append]
  split_ifs <;>
    simp_all [e1, e2, e3, e4, e5, e6, setField, initParsed]

/-- Witness for C3 at concrete inputs, with two fields left empty. -/
theorem fix_labels_roundtrip_witness :
    pyStrip (str "Alpha") = str "Alpha" ∧ hasDigitHead (str "Alpha") = false ∧
    parse_labels (buildFixLabels (str "Alpha") (str "In Progress") [] []
        (str "WS") (str "M1")) =
      { Team := str "Alpha", Status := str "In Progress", Sprint := [],
        Project := [], Workstream := str "WS", Milestone := str "M1" } :=
  ⟨by decide, by decide,
   fix_labels_roundtrip (str "Alpha") (str "In Progress") [] [] (str "WS") (str "M1")
     (by decide) (by decide) (by decide) (by decide) (by decide) (by decide)
     (by decide) (by decide) (by decide) (by decide) (by decide) (by decide)⟩

lemma dictGet_dictSet_same {α : Type} (d : List (String × α)) (k : String) (v : α) :
    dictGet (dictSet d k v) k = some v := by
  induction d with
  | nil => simp [dictGet, dictSet]
  | cons hd tl ih =>
    obtain ⟨q, w⟩ := hd
    by_cases h : q = k
    · simp [dictSet, dictGet, h]
    · simp [dictSet, dictGet, h, ih]

lemma dictGet_dictSet_other {α : Type} (d : List (String × α)) (k g : String) (v : α)
    (hg : g ≠ k) : dictGet (dictSet d k v) g = dictGet d g := by
  have hkg : (k = g) = False := by
    simp only [eq_iff_iff, iff_false]
    exact fun h => hg h.symm
  induction d with
  | nil => simp [dictSet, dictGet, hkg]
  | cons hd tl ih =>
    obtain ⟨q, w⟩ := hd
    by_cases h : q = k
    · subst h
      simp [dictSet, dictGet, hkg]
    · simp [dictSet, dictGet, h, ih]

lemma dictSet_dictSet_same {α : Type} (d : List (String × α)) (k : String) (a b : α) :
    dictSet (dictSet d k a) k b = dictSet d k b := by
  induction d with
  | nil => simp [dictSet]
  | cons hd tl ih =>
    obtain ⟨q, w⟩ := hd
    by_cases h : q = k
    · simp [dictSet, h]
    · simp [dictSet, h, ih]

/-- The commentary mapping `add_comment` persists: the fund's list with one
entry appended at the end (created as `[]` first when absent). -/
lemma add_comment_commentary (st : ExplorerState)
    (fund_name comment user now nowLog : String) :
    (add_comment st fund_name comment user now nowLog).commentaryFile =
      dictSet st.commentaryFile fund_name
        ((dictGet st.commentaryFile fund_name).getD [] ++
          [⟨now, comment, user⟩]) := by
  rw [add_comment, log_action]
  cases h : dictGet st.commentaryFile fund_name with
  | none =>
    simp only [h, Option.isSome_none, Bool.false_eq_true, if_false, Option.getD_none,
      dictGet_dictSet_same, Option.getD_some, List.nil_append]
    rw [dictSet_dictSet_same]
  | some cur =>
    simp [h]

/-- The log mapping `log_action` persists: the user's list with one entry
appended at the end (created as `[]` first when absent). -/
lemma log_action_logs (st : ExplorerState) (user action details now : String) :
    (log_action st user action details now).logFile =
      dictSet st.logFile user
        ((dictGet st.logFile user).getD [] ++ [⟨now, action, details⟩]) := by
  rw [log_action]
  cases h : dictGet st.logFile user with
  | none =>
    simp only [h, Option.isSome_none, Bool.false_eq_true, if_false, Option.getD_none,
      dictGet_dictSet_same, Option.getD_some, List.nil_append]
    rw [dictSet_dictSet_same]
  | some cur =>
    simp [h]

/-- Claim C4: `add_comment` appends exactly one entry (timestamp, comment,
user) at the end of the fund's commentary list, creating the list when the
fund had none, leaves every other fund unchanged, and the resulting mapping
is exactly what is persisted to the commentary JSON file. -/
theorem add_comment_spec (st : ExplorerState)
    (fund_name comment user now nowLog : String) :
    dictGet (add_comment st fund_name comment user now nowLog).commentaryFile
        fund_name =
      some ((dictGet st.commentaryFile fund_name).getD [] ++
        [⟨now, comment, user⟩]) ∧
    (∀ g : String, g ≠ fund_name →
      dictGet (add_comment st fund_name comment user now nowLog).commentaryFile g =
        dictGet st.commentaryFile g) ∧
    (add_comment st fund_name comment user now nowLog).commentaryFile =
      dictSet st.commentaryFile fund_name
        ((dictGet st.commentaryFile fund_name).getD [] ++ [⟨now, comment, user⟩]) := by
  rw [add_comment_commentary]
  exact ⟨dictGet_dictSet_same _ _ _,
    fun g hg => dictGet_dictSet_other _ _ _ _ hg, rfl⟩

/-- Witness for C4 on a concrete state where the fund is new and another
fund already has commentary. -/
theorem add_comment_spec_witness :
    dictGet (add_comment ⟨[("FundB", [⟨"t0", "old", "bob"⟩])], []⟩
        "FundA" "note" "alice" "t1" "t2").commentaryFile "FundA" =
      some ((dictGet ([("FundB", [⟨"t0", "old", "bob"⟩])] :
          List (String × List CommentEntry)) "FundA").getD [] ++
        [⟨"t1", "note", "alice"⟩]) ∧
    ("FundB" : String) ≠ "FundA" ∧
    dictGet (add_comment ⟨[("FundB", [⟨"t0", "old", "bob"⟩])], []⟩
        "FundA" "note" "alice" "t1" "t2").commentaryFile "FundB" =
      dictGet ([("FundB", [⟨"t0", "old", "bob"⟩])] :
        List (String × List CommentEntry)) "FundB" :=
  ⟨(add_comment_spec _ _ _ _ _ _).1, by decide,
   (add_comment_spec _ _ _ _ _ _).2.1 "FundB" (by decide)⟩

/-- Claim C5: after `add_comment` completes, exactly one new log entry with
action "Added commentary" and the fund name as its details has been appended
to that user's activity log, and no other user's entries change. -/
theorem add_comment_logging (st : ExplorerState)
    (fund_name comment user now nowLog : String) :
    dictGet (add_comment st fund_name comment user now nowLog).logFile user =
      some ((dictGet st.logFile user).getD [] ++
        [⟨nowLog, "Added commentary", fund_name⟩]) ∧
    (∀ u2 : String, u2 ≠ user →
      dictGet (add_comment st fund_name comment user now nowLog).logFile u2 =
        dictGet st.logFile u2) := by
  have h : (add_comment st fund_name comment user now nowLog).logFile =
      dictSet st.logFile user
        ((dictGet st.logFile user).getD [] ++
          [⟨nowLog, "Added commentary", fund_name⟩]) := by
    rw [add_comment, log_action_logs]
  rw [h]
  exact ⟨dictGet_dictSet_same _ _ _,
    fun u2 hu => dictGet_dictSet_other _ _ _ _ hu⟩

/-- Witness for C5 on a concrete state with an existing log for another
user. -/
theorem add_comment_logging_witness :
    dictGet (add_comment ⟨[], [("bob", [⟨"t0", "Viewed fund", "FundB"⟩])]⟩
        "FundA" "note" "alice" "t1" "t2").logFile "alice" =
      some ((dictGet ([("bob", [⟨"t0", "Viewed fund", "FundB"⟩])] :
          List (String × List LogEntry)) "alice").getD [] ++
        [⟨"t2", "Added commentary", "FundA"⟩]) ∧
    ("bob" : String) ≠ "alice" ∧
    dictGet (add_comment ⟨[], [("bob", [⟨"t0", "Viewed fund", "FundB"⟩])]⟩
        "FundA" "note" "alice" "t1" "t2").logFile "bob" =
      dictGet ([("bob", [⟨"t0", "Viewed fund", "FundB"⟩])] :
        List (String × List LogEntry)) "bob" :=
  ⟨(add_comment_logging _ _ _ _ _ _).1, by decide,
   (add_comment_logging _ _ _ _ _ _).2 "bob" (by decide)⟩

/-- Claim C6, counterexample: the `load_json_file` of `updated-logging.py`
has no try/except around `json.load`, so an existing but unparseable file
raises instead of returning the default. -/
theorem load_json_file_raises :
    load_json_file_noTry
      (FileContent.invalid : FileContent (List (String × List LogEntry))) [] =
      PyResult.exc := rfl

/-- Claim C6, amended: the try/except variants (`userhistorytab.py`,
`updatedUIwithAPIexceptionhandling.py`, `updatedfinalfile.py`) return the
parsed contents of a valid file and the default for a missing or
unparseable file, never raising; the `updated-logging.py` variant returns
parsed contents of a valid file and `{}` for a missing file, but raises on
an existing unparseable file. -/
theorem load_json_file_amended :
    (∀ (α : Type) (d a : α), load_json_file_try (FileContent.valid a) d = .ok a) ∧
    (∀ (α : Type) (d : α),
      load_json_file_try (FileContent.missing : FileContent α) d = .ok d) ∧
    (∀ (α : Type) (d : α),
      load_json_file_try (FileContent.invalid : FileContent α) d = .ok d) ∧
    (∀ (α : Type) (d : α) (fc : FileContent α),
      ∃ r, load_json_file_try fc d = .ok r) ∧
    (∀ (α : Type) (e a : α), load_json_file_noTry (FileContent.valid a) e = .ok a) ∧
    (∀ (α : Type) (e : α),
      load_json_file_noTry (FileContent.missing : FileContent α) e = .ok e) ∧
    (∀ (α : Type) (e : α),
      load_json_file_noTry (FileContent.invalid : FileContent α) e = .exc) := by
  refine ⟨fun α d a => rfl, fun α d => rfl, fun α d => rfl, ?_,
    fun α e a => rfl, fun α e => rfl, fun α e => rfl⟩
  intro α d fc
  cases fc <;> exact ⟨_, rfl⟩

/-- Summing a group fiberwise over a duplicate-free list of keys that covers
every element equals summing the whole group. -/
lemma sum_map_filter_key {α : Type} (g : α → ℚ) (key : α → String) :
    ∀ (cs : List String) (l : List α), cs.Nodup → (∀ r ∈ l, key r ∈ cs) →
    (cs.map (fun c => ((l.filter (fun r => key r = c)).map g).sum)).sum =
      (l.map g).sum := by
  intro cs
  induction cs with
  | nil =>
    intro l _ hc
    cases l with
    | nil => simp
    | cons a t => exact absurd (hc a (by simp)) (by simp)
  | cons c cs' ih =>
    intro l hn hc
    have hA : ∀ x : α, (fun r => decide (key r = c)) x = true ↔ key x = c := by
      intro x
      simp
    have hperm : List.Perm
        (l.filter (fun r => key r = c) ++ l.filter (fun r => !(decide (key r = c)))) l :=
      List.filter_append_perm _ l
    have hsum : (l.map g).sum =
        ((l.filter (fun r => key r = c)).map g).sum +
          ((l.filter (fun r => !(decide (key r = c)))).map g).sum := by
      have h1 := (hperm.map g).sum_eq
      rw [List.map_append, List.sum_append] at h1
      exact h1.symm
    have hinner : ∀ c' ∈ cs',
        l.filter (fun r => key r = c') =
          (l.filter (fun r => !(decide (key r = c)))).filter (fun r => key r = c') := by
      intro c' hc'
      have hcc : c ≠ c' := by
        intro h
        rw [h] at hn
        exact (List.nodup_cons.mp hn).1 hc'
      rw [List.filter_filter]
      apply List.filter_congr
      intro r _
      by_cases h : key r = c'
      · have h2 : ¬ (key r = c) := fun hx => hcc (hx.symm.trans h)
        have h3 : ¬ (c' = c) := fun hx => hcc hx.symm
        simp [h, h2, h3]
      · simp [h]
    rw [List.map_cons, List.sum_cons]
    have hrec : (cs'.map (fun c' => ((l.filter (fun r => key r = c')).map g).sum)).sum =
        ((l.filter (fun r => !(decide (key r = c)))).map g).sum := by
      have hmap : cs'.map (fun c' => ((l.filter (fun r => key r = c')).map g).sum) =
          cs'.map (fun c' =>
            (((l.filter (fun r => !(decide (key r = c)))).filter
              (fun r => key r = c')).map g).sum) := by
        apply List.map_congr_left
        intro c' hc'
        rw [hinner c' hc']
      rw [hmap]
      apply ih
      · exact (List.nodup_cons.mp hn).2
      · intro r hr
        have hrl := List.mem_of_mem_filter hr
        have hkey := hc r hrl
        have hne : key r ≠ c := by
          have := List.of_mem_filter hr
          simpa using this
        cases List.mem_cons.mp hkey with
        | inl h => exact absurd h hne
        | inr h => exact h
    rw [hrec, hsum]

/-- Claim C7: before pivoting, every `"Yes"` (case-insensitive) becomes 1
and every `"No"` becomes 0 (so under the mock-data hypothesis all pivoted
cells are numeric); each pivot cell at row `(Fund_Name, Metric_Name)` and
column `Column_Name` is the sum of all matching mapped `Value` entries
(absent combinations giving the empty sum 0); and the `Total` column of
every row equals the sum of that row's per-column values, i.e. the sum over
the whole `(Fund_Name, Metric_Name)` group. -/
theorem pivot_spec (rows : List FactRow)
    (hnum : ∀ r ∈ rows, isNumericCell (mapYesNo r.value) = true) :
    (∀ s : PyStr, pyLower s = str "yes" → mapYesNo (.strVal s) = .numVal 1) ∧
    (∀ s : PyStr, pyLower s = str "no" → mapYesNo (.strVal s) = .numVal 0) ∧
    (∀ r ∈ mapValues rows, isNumericCell r.value = true) ∧
    (∀ f m c : String, pivotCell (mapValues rows) f m c =
      ((rows.filter (fun r => r.fund = f ∧ r.metric = m ∧ r.columnName = c)).map
        (fun r => asNumber (mapYesNo r.value))).sum) ∧
    (∀ f m : String, totalCell (mapValues rows) f m =
      (((mapValues rows).filter (fun r => r.fund = f ∧ r.metric = m)).map
        (fun r => asNumber r.value)).sum) := by
  refine ⟨?_, ?_, ?_, ?_, ?_⟩
  · intro s h
    simp [mapYesNo, h]
  · intro s h
    have hy : ¬ (pyLower s = str "yes") := by
      rw [h]
      decide
    simp [mapYesNo, hy, h]
    decide
  · intro r hr
    rw [mapValues] at hr
    obtain ⟨r0, hr0, rfl⟩ := List.mem_map.mp hr
    exact hnum r0 hr0
  · intro f m c
    rw [pivotCell, mapValues, filter_map_comm, List.map_map]
    rfl
  · intro f m
    rw [totalCell]
    have hcell : ∀ c ∈ pivotColumns (mapValues rows),
        pivotCell (mapValues rows) f m c =
          ((((mapValues rows).filter (fun r => r.fund = f ∧ r.metric = m)).filter
            (fun r => r.columnName = c)).map (fun r => asNumber r.value)).sum := by
      intro c _
      rw [pivotCell, List.filter_filter]
      have hpred : ((mapValues rows).filter
            (fun r => r.fund = f ∧ r.metric = m ∧ r.columnName = c)) =
          ((mapValues rows).filter
            (fun r => decide (r.columnName = c) && decide (r.fund = f ∧ r.metric = m))) := by
        apply List.filter_congr
        intro r _
        by_cases h1 : r.fund = f <;> by_cases h2 : r.metric = m <;>
          by_cases h3 : r.columnName = c <;> simp [h1, h2, h3]
      rw [hpred]
    rw [List.map_congr_left hcell]
    have h1 : (pivotColumns (mapValues rows)).Nodup := List.nodup_dedup _
    have h2 : ∀ r ∈ (mapValues rows).filter (fun r => r.fund = f ∧ r.metric = m),
        r.columnName ∈ pivotColumns (mapValues rows) := by
      intro r hr
      have hrl := List.mem_of_mem_filter hr
      rw [pivotColumns, List.mem_dedup]
      exact List.mem_map.mpr ⟨r, hrl, rfl⟩
    exact sum_map_filter_key (fun r : FactRow => asNumber r.value)
      (fun r : FactRow => r.columnName) (pivotColumns (mapValues rows))
      ((mapValues rows).filter (fun r => r.fund = f ∧ r.metric = m)) h1 h2

/-- Witness for C7 on a small concrete dataset containing Yes/No and
numeric values. -/
theorem pivot_spec_witness :
    (∀ r ∈ ([⟨"A", "Watch List", "Private Loan", "2025-Q1", .strVal (str "Yes")⟩,
      ⟨"A", "Watch List", "Public Loan", "2025-Q1", .strVal (str "No")⟩,
      ⟨"A", "Par Value", "Private Loan", "2025-Q1", .numVal 3⟩] : List FactRow),
      isNumericCell (mapYesNo r.value) = true) ∧
    totalCell (mapValues [⟨"A", "Watch List", "Private Loan", "2025-Q1", .strVal (str "Yes")⟩,
      ⟨"A", "Watch List", "Public Loan", "2025-Q1", .strVal (str "No")⟩,
      ⟨"A", "Par Value", "Private Loan", "2025-Q1", .numVal 3⟩]) "A" "Watch List" =
      (((mapValues [⟨"A", "Watch List", "Private Loan", "2025-Q1", .strVal (str "Yes")⟩,
        ⟨"A", "Watch List", "Public Loan", "2025-Q1", .strVal (str "No")⟩,
        ⟨"A", "Par Value", "Private Loan", "2025-Q1", .numVal 3⟩]).filter
          (fun r => r.fund = "A" ∧ r.metric = "Watch List")).map
        (fun r => asNumber r.value)).sum :=
  ⟨by decide, (pivot_spec _ (by decide)).2.2.2.2 "A" "Watch List"⟩

lemma mem_dictSet {α : Type} (d : List (String × α)) (k : String) (v : α)
    (e : String × α) (he : e ∈ dictSet d k v) : e = (k, v) ∨ e ∈ d := by
  induction d with
  | nil => simpa [dictSet] using he
  | cons hd tl ih =>
    obtain ⟨q, w⟩ := hd
    simp only [dictSet] at he
    by_cases h : q = k
    · rw [if_pos h] at he
      rcases List.mem_cons.mp he with h1 | h1
      · left
        rw [h1, h]
      · right
        exact List.mem_cons_of_mem _ h1
    · rw [if_neg h] at he
      rcases List.mem_cons.mp he with h1 | h1
      · right
        rw [h1]
        exact List.mem_cons_self _ _
      · rcases ih h1 with h2 | h2
        · left
          exact h2
        · right
          exact List.mem_cons_of_mem _ h2

/-- A fold preserves a property of accumulated entries when every step
does. -/
lemma foldl_mem_inv {γ ε : Type} (P : ε → Prop) (step : List ε → γ → List ε) :
    ∀ (l : List γ) (acc : List ε), (∀ e ∈ acc, P e) →
      (∀ x ∈ l, ∀ acc2 : List ε, (∀ e ∈ acc2, P e) → ∀ e ∈ step acc2 x, P e) →
      ∀ e ∈ l.foldl step acc, P e := by
  intro l
  induction l with
  | nil =>
    intro acc hacc _ e he
    exact hacc e he
  | cons x t ih =>
    intro acc hacc hstep e he
    rw [List.foldl_cons] at he
    exact ih (step acc x)
      (fun e2 he2 => hstep x (List.mem_cons_self _ _) acc hacc e2 he2)
      (fun y hy acc2 hacc2 => hstep y (List.mem_cons_of_mem _ hy) acc2 hacc2) e he

/-- Claim C8: every entry of the dictionary returned by the mapping-based
`load_excel_files_from_folder` comes from a file present in the mapping
whose workbook opened, from a sheet of its spec that exists, was read and
was non-empty; the entry's key is `"<fund name> (<sheet>)"`, its frame is
the read frame with the `Fund Name` column set, it is non-empty, and every
row's `Fund Name` cell is the file's base name without extension with
`"file"` removed and uppercased. -/
theorem load_excel_spec (files : List XFile) (mapping : List (String × SheetSpec))
    (key : String) (fr : Frame)
    (hmem : (key, fr) ∈ load_excel_files_from_folder files mapping) :
    ∃ file ∈ files, ∃ spec ws,
      dictGet mapping file.fname = some spec ∧
      file.sheets = some ws ∧
      ∃ sheet ∈ specSheets spec, ∃ df,
        dictGet ws sheet = some (some df) ∧ df ≠ [] ∧
        key = fundNameOf file.fname ++ " (" ++ sheet ++ ")" ∧
        fr = setColumn df "Fund Name" (fundNameOf file.fname) ∧
        fr ≠ [] ∧
        ∀ r ∈ fr, dictGet r "Fund Name" = some (fundNameOf file.fname) := by
  have main : ∀ e ∈ load_excel_files_from_folder files mapping,
      ∃ file ∈ files, ∃ spec ws,
        dictGet mapping file.fname = some spec ∧
        file.sheets = some ws ∧
        ∃ sheet ∈ specSheets spec, ∃ df,
          dictGet ws sheet = some (some df) ∧ df ≠ [] ∧
          e.1 = fundNameOf file.fname ++ " (" ++ sheet ++ ")" ∧
          e.2 = setColumn df "Fund Name" (fundNameOf file.fname) ∧
          e.2 ≠ [] ∧
          ∀ r ∈ e.2, dictGet r "Fund Name" = some (fundNameOf file.fname) := by
    apply foldl_mem_inv
    · intro e he
      exact absurd he (List.not_mem_nil e)
    · intro x hx acc2 hacc2 e he
      simp only [loadFileStep] at he
      cases hm : dictGet mapping x.fname with
      | none =>
        simp only [hm] at he
        exact hacc2 e he
      | some spec =>
        simp only [hm] at he
        cases hs : x.sheets with
        | none =>
          simp only [hs] at he
          exact hacc2 e he
        | some ws =>
          simp only [hs] at he
          refine foldl_mem_inv _ (loadSheetStep (fundNameOf x.fname) ws)
            (specSheets spec) acc2 hacc2 ?_ e he
          intro sheet hsheet dfs hdfs e2 he2
          simp only [loadSheetStep] at he2
          cases hg : dictGet ws sheet with
          | none =>
            simp only [hg] at he2
            exact hdfs e2 he2
          | some odf =>
            cases odf with
            | none =>
              simp only [hg] at he2
              exact hdfs e2 he2
            | some df =>
              simp only [hg] at he2
              by_cases hemp : df.isEmpty
              · rw [if_pos hemp] at he2
                exact hdfs e2 he2
              · rw [if_neg hemp] at he2
                rcases mem_dictSet _ _ _ _ he2 with h1 | h1
                · have hdf : df ≠ [] := by
                    intro hnil
                    rw [hnil] at hemp
                    exact hemp rfl
                  refine ⟨x, hx, spec, ws, hm, hs, sheet, hsheet, df, hg, hdf,
                    ?_, ?_, ?_, ?_⟩
                  · rw [h1]
                  · rw [h1]
                  · rw [h1]
                    simp only [setColumn, ne_eq, List.map_eq_nil_iff]
                    exact hdf
                  · intro r hr
                    rw [h1] at hr
                    simp only [setColumn, List.mem_map] at hr
                    obtain ⟨r0, _, rfl⟩ := hr
                    exact dictGet_dictSet_same _ _ _
                · exact hdfs e2 h1
  exact main (key, fr) hmem

example : fundNameOf "filea.xlsx" = "A" := by decide

/-- Witness for C8 on a concrete folder: one mapped file with one good
sheet, plus an unopenable file. -/
theorem load_excel_spec_witness :
    ∃ file ∈ ([⟨"filea.xlsx", some [("Sheet1", some [[("Fund", "X")]])]⟩,
        ⟨"other.xlsx", none⟩] : List XFile), ∃ spec ws,
      dictGet [("filea.xlsx", SheetSpec.single "Sheet1")] file.fname = some spec ∧
      file.sheets = some ws ∧
      ∃ sheet ∈ specSheets spec, ∃ df,
        dictGet ws sheet = some (some df) ∧ df ≠ [] ∧
        "A (Sheet1)" = fundNameOf file.fname ++ " (" ++ sheet ++ ")" ∧
        ([[("Fund", "X"), ("Fund Name", "A")]] : Frame) =
          setColumn df "Fund Name" (fundNameOf file.fname) ∧
        ([[("Fund", "X"), ("Fund Name", "A")]] : Frame) ≠ [] ∧
        ∀ r ∈ ([[("Fund", "X"), ("Fund Name", "A")]] : Frame),
          dictGet r "Fund Name" = some (fundNameOf file.fname) :=
  load_excel_spec
    [⟨"filea.xlsx", some [("Sheet1", some [[("Fund", "X")]])]⟩, ⟨"other.xlsx", none⟩]
    [("filea.xlsx", SheetSpec.single "Sheet1")]
    "A (Sheet1)" [[("Fund", "X"), ("Fund Name", "A")]] (by decide)

/-- Claim C10: the label columns of the exported CSV are the distinct labels
over all fetched issues in sorted order, and each issue row holds 1 in a
label column exactly when that label is among the issue's labels (so label
membership is reconstructible from the row). -/
theorem csv_export_spec (all_issues : List ExportIssue) :
    List.Sorted (· ≤ ·) (sorted_labels all_issues) ∧
    (sorted_labels all_issues).Nodup ∧
    (∀ label : PyStr, label ∈ sorted_labels all_issues ↔
      ∃ issue ∈ all_issues, label ∈ issue.labels) ∧
    (∀ issue ∈ all_issues, ∀ (j : Nat) (label : PyStr),
      (sorted_labels all_issues)[j]? = some label →
        (labelCells (sorted_labels all_issues) issue)[j]? =
          some (if label ∈ issue.labels then 1 else 0) ∧
        ((labelCells (sorted_labels all_issues) issue)[j]? = some 1 ↔
          label ∈ issue.labels)) := by
  refine ⟨List.sorted_insertionSort _ _, ?_, ?_, ?_⟩
  · exact ((List.perm_insertionSort _ _).nodup_iff).mpr (List.nodup_dedup _)
  · intro label
    rw [sorted_labels, (List.perm_insertionSort _ _).mem_iff, allLabels,
      List.mem_dedup, List.mem_flatten]
    constructor
    · rintro ⟨l, hl, hlab⟩
      obtain ⟨i, hi, rfl⟩ := List.mem_map.mp hl
      exact ⟨i, hi, hlab⟩
    · rintro ⟨i, hi, hlab⟩
      exact ⟨i.labels, List.mem_map.mpr ⟨i, hi, rfl⟩, hlab⟩
  · intro issue _ j label hj
    have hcell : (labelCells (sorted_labels all_issues) issue)[j]? =
        some (if label ∈ issue.labels then 1 else 0) := by
      rw [labelCells, List.getElem?_map, hj]
      rfl
    refine ⟨hcell, ?_⟩
    rw [hcell]
    by_cases hmem : label ∈ issue.labels
    · simp [hmem]
    · simp [hmem]

/-- Witness for C10 on two concrete issues sharing a label. -/
theorem csv_export_spec_witness :
    (⟨1, str "t1", str "opened", str "u", str "", str "d", str "",
        [str "b", str "a"]⟩ : ExportIssue) ∈
      ([⟨1, str "t1", str "opened", str "u", str "", str "d", str "",
          [str "b", str "a"]⟩,
        ⟨2, str "t2", str "closed", str "u", str "", str "d", str "",
          [str "a", str "c"]⟩] : List ExportIssue) ∧
    (sorted_labels [⟨1, str "t1", str "opened", str "u", str "", str "d", str "",
        [str "b", str "a"]⟩,
      ⟨2, str "t2", str "closed", str "u", str "", str "d", str "",
        [str "a", str "c"]⟩])[2]? = some (str "c") ∧
    ((labelCells (sorted_labels [⟨1, str "t1", str "opened", str "u", str "", str "d",
        str "", [str "b", str "a"]⟩,
      ⟨2, str "t2", str "closed", str "u", str "", str "d", str "",
        [str "a", str "c"]⟩])
      ⟨1, str "t1", str "opened", str "u", str "", str "d", str "",
        [str "b", str "a"]⟩)[2]? = some 1 ↔
      str "c" ∈ [str "b", str "a"]) :=
  ⟨by decide, by decide,
   ((csv_export_spec _).2.2.2 _ (by decide) 2 (str "c") (by decide)).2⟩
